import Mathlib

/-!
Verification of the AI-NEXUS multi-AI orchestration engine against its
design specification.

The pipeline's core algorithms are embedded shallowly from the repository
sources:

* `calculate_quality_score` — the Quality Gate scoring arithmetic, from the
  pseudocode in `需求文档_多AI协作系统.md` (§4.3.3).
* `devStep` / `devLoop` — the generate→evaluate→retry loop, from
  `iterative_develop` in `需求文档_多AI协作系统.md` (§4.3.1).
* `onclose` / `scheduleReconnect` — the WebSocket client reconnect policy,
  from `web_platform/frontend/src/contexts/WebSocketContext.jsx`.

Components whose implementation is not part of the repository snapshot
(the Run Registry's atomic check-and-create, the Event Hub's sequence
numbering, the Hub-side heartbeat, and the Case Memory similarity ranking)
are modelled from the specification text; each such definition carries a
doc comment starting `Modelled from the spec:`.
-/

namespace AINexus

/-! ## Quality Gate (`calculate_quality_score`, 需求文档 §4.3.3) -/

/-- Severity of a quality/test finding, per the data model
(`critical|high|medium|low`). -/
inductive Severity where
  | critical
  | high
  | medium
  | low
deriving DecidableEq, Repr

/-- A quality/test issue attached to an artifact version.  Only the
severity is consulted by the scoring arithmetic. -/
structure Finding where
  severity : Severity
  message : String
deriving DecidableEq, Repr

/-- The deduction loop body of `calculate_quality_score`: subtract 20 per
critical, 10 per high, 5 per medium and 2 per low issue. -/
def deductionStep (s : Int) (issue : Finding) : Int :=
  match issue.severity with
  | .critical => s - 20
  | .high => s - 10
  | .medium => s - 5
  | .low => s - 2

/-- The bonus loop body of `calculate_quality_score`: +5 when
`docstring_coverage ≥ 80`, +10 when `test_coverage ≥ 90`. -/
def bonusStep (s : Int) (mv : String × Int) : Int :=
  if mv.1 = "docstring_coverage" ∧ mv.2 ≥ 80 then s + 5
  else if mv.1 = "test_coverage" ∧ mv.2 ≥ 90 then s + 10
  else s

/-- The Quality Gate scoring function, embedded from the pseudocode
`calculate_quality_score(issues, metrics)`: start from a base score of 100,
fold the per-issue deductions, fold the rubric bonuses over the metrics
map, and clamp the result to [0, 100].  All arithmetic in the source stays
integral, so the score is embedded over `Int`. -/
def calculate_quality_score (issues : List Finding) (metrics : List (String × Int)) : Int :=
  let afterDeductions := issues.foldl deductionStep 100
  let afterBonus := metrics.foldl bonusStep afterDeductions
  max 0 (min 100 afterBonus)

/-- Number of findings of a given severity. -/
def countSeverity (sev : Severity) (issues : List Finding) : Nat :=
  issues.countP (fun f => decide (f.severity = sev))

/-- The per-issue deduction weight of the scoring policy. -/
def deduction (sev : Severity) : Int :=
  match sev with
  | .critical => 20
  | .high => 10
  | .medium => 5
  | .low => 2

/-- The total deduction prescribed by the scoring policy. -/
def totalDeduction (issues : List Finding) : Int :=
  20 * countSeverity .critical issues + 10 * countSeverity .high issues
    + 5 * countSeverity .medium issues + 2 * countSeverity .low issues

/-- The rubric bonus accumulated over the metrics map. -/
def totalBonus (metrics : List (String × Int)) : Int :=
  metrics.foldl bonusStep 0

theorem deductionStep_shift (c : Int) (f : Finding) :
    deductionStep c f = c - deduction f.severity := by
  cases hf : f.severity <;> simp [deductionStep, deduction, hf]

theorem totalDeduction_cons (f : Finding) (t : List Finding) :
    totalDeduction (f :: t) = deduction f.severity + totalDeduction t := by
  cases hf : f.severity <;>
    · simp [totalDeduction, countSeverity, List.countP_cons, hf, deduction]
      ring

theorem foldl_deductions (issues : List Finding) (c : Int) :
    issues.foldl deductionStep c = c - totalDeduction issues := by
  induction issues generalizing c with
  | nil => simp [totalDeduction, countSeverity]
  | cons f t ih =>
    rw [List.foldl_cons, ih, totalDeduction_cons, deductionStep_shift]
    ring

theorem bonusStep_shift (c : Int) (mv : String × Int) :
    bonusStep c mv = c + bonusStep 0 mv := by
  unfold bonusStep
  split_ifs <;> omega

theorem foldl_bonus (metrics : List (String × Int)) (c : Int) :
    metrics.foldl bonusStep c = c + totalBonus metrics := by
  induction metrics generalizing c with
  | nil => simp [totalBonus]
  | cons mv t ih =>
    have expand : totalBonus (mv :: t) = bonusStep 0 mv + totalBonus t := by
      unfold totalBonus
      rw [List.foldl_cons, ih (bonusStep 0 mv)]
      rfl
    rw [List.foldl_cons, ih (bonusStep c mv), expand, bonusStep_shift]
    ring

theorem totalBonus_cons (mv : String × Int) (t : List (String × Int)) :
    totalBonus (mv :: t) = bonusStep 0 mv + totalBonus t := by
  unfold totalBonus
  rw [List.foldl_cons, foldl_bonus]
  rfl

theorem totalBonus_nonneg (metrics : List (String × Int)) : 0 ≤ totalBonus metrics := by
  induction metrics with
  | nil => simp [totalBonus]
  | cons mv t ih =>
    have hstep : 0 ≤ bonusStep 0 mv := by
      unfold bonusStep; split_ifs <;> omega
    rw [totalBonus_cons]
    omega

/-- Bonus of a metrics list with no relevant key is zero. -/
theorem totalBonus_of_no_keys (metrics : List (String × Int))
    (hd : ¬ "docstring_coverage" ∈ metrics.map Prod.fst)
    (ht : ¬ "test_coverage" ∈ metrics.map Prod.fst) :
    totalBonus metrics = 0 := by
  induction metrics with
  | nil => rfl
  | cons mv t ih =>
    simp only [List.map_cons, List.mem_cons] at hd ht
    push_neg at hd ht
    have hstep : bonusStep 0 mv = 0 := by
      unfold bonusStep
      rw [if_neg (fun h => hd.1 h.1.symm), if_neg (fun h => ht.1 h.1.symm)]
    rw [totalBonus_cons, hstep, ih hd.2 ht.2]
    omega

/-- Bonus of a nodup metrics list lacking the docstring key is at most 10. -/
theorem totalBonus_le_of_no_docstring (metrics : List (String × Int))
    (hnd : (metrics.map Prod.fst).Nodup)
    (hd : ¬ "docstring_coverage" ∈ metrics.map Prod.fst) :
    totalBonus metrics ≤ 10 := by
  induction metrics with
  | nil => simp [totalBonus]
  | cons mv t ih =>
    simp only [List.map_cons, List.nodup_cons] at hnd
    simp only [List.map_cons, List.mem_cons] at hd
    push_neg at hd
    rw [totalBonus_cons]
    by_cases h2 : mv.1 = "test_coverage" ∧ mv.2 ≥ 90
    · have hz : totalBonus t = 0 := by
        refine totalBonus_of_no_keys t hd.2 ?ht
        rw [← h2.1]
        exact hnd.1
      have hstep : bonusStep 0 mv = 10 := by
        unfold bonusStep
        rw [if_neg (fun h => hd.1 h.1.symm), if_pos h2]
        omega
      omega
    · have hstep : bonusStep 0 mv = 0 := by
        unfold bonusStep
        rw [if_neg (fun h => hd.1 h.1.symm), if_neg h2]
      have := ih hnd.2 hd.2
      omega

/-- Bonus of a nodup metrics list lacking the test-coverage key is at most 5. -/
theorem totalBonus_le_of_no_testcov (metrics : List (String × Int))
    (hnd : (metrics.map Prod.fst).Nodup)
    (ht : ¬ "test_coverage" ∈ metrics.map Prod.fst) :
    totalBonus metrics ≤ 5 := by
  induction metrics with
  | nil => simp [totalBonus]
  | cons mv t ih =>
    simp only [List.map_cons, List.nodup_cons] at hnd
    simp only [List.map_cons, List.mem_cons] at ht
    push_neg at ht
    rw [totalBonus_cons]
    by_cases h1 : mv.1 = "docstring_coverage" ∧ mv.2 ≥ 80
    · have hz : totalBonus t = 0 := by
        refine totalBonus_of_no_keys t ?hd ht.2
        rw [← h1.1]
        exact hnd.1
      have hstep : bonusStep 0 mv = 5 := by
        unfold bonusStep
        rw [if_pos h1]
        omega
      omega
    · have hstep : bonusStep 0 mv = 0 := by
        unfold bonusStep
        rw [if_neg h1, if_neg (fun h => ht.1 h.1.symm)]
      have := ih hnd.2 ht.2
      omega

/-- Bonus of a metrics map (nodup keys) is at most 15. -/
theorem totalBonus_le (metrics : List (String × Int))
    (hnd : (metrics.map Prod.fst).Nodup) :
    totalBonus metrics ≤ 15 := by
  induction metrics with
  | nil => simp [totalBonus]
  | cons mv t ih =>
    simp only [List.map_cons, List.nodup_cons] at hnd
    rw [totalBonus_cons]
    by_cases h1 : mv.1 = "docstring_coverage" ∧ mv.2 ≥ 80
    · have hb : totalBonus t ≤ 10 := by
        refine totalBonus_le_of_no_docstring t hnd.2 ?hd
        rw [← h1.1]
        exact hnd.1
      have hstep : bonusStep 0 mv = 5 := by
        unfold bonusStep
        rw [if_pos h1]
        omega
      omega
    · by_cases h2 : mv.1 = "test_coverage" ∧ mv.2 ≥ 90
      · have hb : totalBonus t ≤ 5 := by
          refine totalBonus_le_of_no_testcov t hnd.2 ?ht
          rw [← h2.1]
          exact hnd.1
        have hstep : bonusStep 0 mv = 10 := by
          unfold bonusStep
          rw [if_neg h1, if_pos h2]
          omega
        omega
      · have hstep : bonusStep 0 mv = 0 := by
          unfold bonusStep
          rw [if_neg h1, if_neg h2]
        have := ih hnd.2
        omega

theorem calculate_quality_score_eq (issues : List Finding) (metrics : List (String × Int)) :
    calculate_quality_score issues metrics
      = max 0 (min 100 (100 - totalDeduction issues + totalBonus metrics)) := by
  show max 0 (min 100 (metrics.foldl bonusStep (issues.foldl deductionStep 100)))
      = max 0 (min 100 (100 - totalDeduction issues + totalBonus metrics))
  rw [foldl_deductions issues 100, foldl_bonus metrics (100 - totalDeduction issues)]

/-- C1: for every findings list and every metrics map (a map has no
duplicate keys), the Quality Gate score equals 100 minus 20 per critical,
10 per high, 5 per medium and 2 per low finding, plus a rubric bonus `b`
with `0 ≤ b ≤ 15`, clamped to the interval [0, 100]. -/
theorem quality_gate_scoring_policy (issues : List Finding) (metrics : List (String × Int))
    (hnd : (metrics.map Prod.fst).Nodup) :
    ∃ b : Int, 0 ≤ b ∧ b ≤ 15 ∧
      calculate_quality_score issues metrics
        = max 0 (min 100 (100
            - (20 * (countSeverity .critical issues : Int)
                + 10 * (countSeverity .high issues : Int)
                + 5 * (countSeverity .medium issues : Int)
                + 2 * (countSeverity .low issues : Int)) + b)) :=
  ⟨totalBonus metrics, totalBonus_nonneg metrics, totalBonus_le metrics hnd,
    calculate_quality_score_eq issues metrics⟩

/-- Witness for C1 at a concrete finding list and metrics map. -/
theorem quality_gate_scoring_policy_witness :
    ∃ b : Int, 0 ≤ b ∧ b ≤ 15 ∧
      calculate_quality_score [⟨.critical, "x"⟩, ⟨.low, "y"⟩] [("test_coverage", 95)]
        = max 0 (min 100 (100
            - (20 * (countSeverity .critical [⟨.critical, "x"⟩, ⟨.low, "y"⟩] : Int)
                + 10 * (countSeverity .high [⟨.critical, "x"⟩, ⟨.low, "y"⟩] : Int)
                + 5 * (countSeverity .medium [⟨.critical, "x"⟩, ⟨.low, "y"⟩] : Int)
                + 2 * (countSeverity .low [⟨.critical, "x"⟩, ⟨.low, "y"⟩] : Int)) + b)) :=
  quality_gate_scoring_policy [⟨.critical, "x"⟩, ⟨.low, "y"⟩] [("test_coverage", 95)] (by decide)

/-- C9: Quality Gate scoring is deterministic — two invocations on
identical findings and identical metrics configuration yield identical
scores (the embedding is a pure function of its two inputs and consults no
other state). -/
theorem quality_gate_deterministic (issues1 issues2 : List Finding)
    (metrics1 metrics2 : List (String × Int))
    (h1 : issues1 = issues2) (h2 : metrics1 = metrics2) :
    calculate_quality_score issues1 metrics1 = calculate_quality_score issues2 metrics2 := by
  rw [h1, h2]

/-- Witness for C9 at a concrete input. -/
theorem quality_gate_deterministic_witness :
    calculate_quality_score [⟨.high, "a"⟩] [("docstring_coverage", 85)]
      = calculate_quality_score [⟨.high, "a"⟩] [("docstring_coverage", 85)] :=
  quality_gate_deterministic _ _ _ _ rfl rfl

/-! ## Iterative development loop (`iterative_develop`, 需求文档 §4.3.1) -/

/-- `FilesDict`: a mapping of file paths to file bodies, as a key/value
list. -/
abbrev FilesDict := List (String × String)

/-- `current_files.update(new_files)`: dictionary merge — keys of the new
files override existing entries. -/
def FilesDict.update (a b : FilesDict) : FilesDict :=
  a.filter (fun kv => !(b.any (fun kv2 => kv2.1 == kv.1))) ++ b

/-- The Tester's verdict on an artifact version. -/
structure TestResult where
  passed : Bool
deriving DecidableEq, Repr

/-- The Supervisor's quality report for an artifact version: a score and a
findings list. -/
structure QualityReport where
  score : Int
  issues : List Finding
deriving DecidableEq, Repr

/-- Modelled from the spec: the Supervisor's `acceptable` verdict consulted
by `iterative_develop` is not implemented in the repository snapshot; per
the spec's retry decision it holds exactly when the quality score meets the
threshold (default 80) and the report has no critical or high severity
finding. -/
def QualityReport.acceptable (threshold : Int) (r : QualityReport) : Bool :=
  threshold ≤ r.score && r.issues.all (fun f => f.severity != .critical && f.severity != .high)

/-- The worker oracles surrounding the retry loop: code generation, test
execution, quality analysis and issue extraction are external capabilities
(the opaque completion service and the Quality Gate); the loop is verified
for every instantiation of them.  `threshold` is the configurable quality
bar (default 80). -/
structure DevEnv where
  threshold : Int
  generate : List Finding → Nat → FilesDict
  execute_tests : FilesDict → TestResult
  analyze_quality : FilesDict → QualityReport
  analyze_issues : TestResult → QualityReport → List Finding

/-- One run state of the retry loop.  `versions` and `reports` record the
artifact version and quality report produced by each iteration; they are
write-only traces used to state properties and are never consulted by the
loop itself. -/
structure DevState where
  current_files : FilesDict
  iteration : Nat
  complete : Bool
  plan : List Finding
  versions : List FilesDict
  reports : List QualityReport
deriving Repr

/-- One iteration body of `iterative_develop`: generate/improve code,
execute the tests, run the quality analysis, then either mark the task
complete or append the extracted issues to the plan; the iteration counter
always advances. -/
def devStep (env : DevEnv) (s : DevState) : DevState :=
  let new_files := env.generate s.plan s.iteration
  let cf := s.current_files.update new_files
  let tr := env.execute_tests cf
  let qr := env.analyze_quality cf
  if tr.passed && qr.acceptable env.threshold then
    { current_files := cf, iteration := s.iteration + 1, complete := true,
      plan := s.plan,
      versions := s.versions ++ [cf], reports := s.reports ++ [qr] }
  else
    { current_files := cf, iteration := s.iteration + 1, complete := false,
      plan := s.plan ++ env.analyze_issues tr qr,
      versions := s.versions ++ [cf], reports := s.reports ++ [qr] }

/-- The `while iteration < max_iterations and not is_complete()` loop of
`iterative_develop`, driven by explicit fuel (the loop body strictly
increases `iteration`, so fuel `max_iterations` is enough from a fresh
state). -/
def devLoop (env : DevEnv) (max_iterations : Nat) : Nat → DevState → DevState
  | 0, s => s
  | fuel + 1, s =>
    if s.iteration < max_iterations ∧ s.complete = false then
      devLoop env max_iterations fuel (devStep env s)
    else s

/-- The state at entry of `iterative_develop`: empty files, iteration 0,
task not complete. -/
def initDevState : DevState :=
  { current_files := [], iteration := 0, complete := false, plan := [],
    versions := [], reports := [] }

/-- `iterative_develop(requirements, max_iterations=5)` returns
`current_files` after the loop. -/
def iterative_develop (env : DevEnv) (max_iterations : Nat := 5) : FilesDict :=
  (devLoop env max_iterations max_iterations initDevState).current_files

theorem devStep_iteration (env : DevEnv) (s : DevState) :
    (devStep env s).iteration = s.iteration + 1 := by
  unfold devStep
  dsimp only
  split <;> rfl

theorem devStep_versions (env : DevEnv) (s : DevState) :
    (devStep env s).versions = s.versions ++ [s.current_files.update (env.generate s.plan s.iteration)] := by
  unfold devStep
  dsimp only
  split <;> rfl

theorem devStep_reports (env : DevEnv) (s : DevState) :
    (devStep env s).reports
      = s.reports ++ [env.analyze_quality (s.current_files.update (env.generate s.plan s.iteration))] := by
  unfold devStep
  dsimp only
  split <;> rfl

theorem devStep_current_files (env : DevEnv) (s : DevState) :
    (devStep env s).current_files = s.current_files.update (env.generate s.plan s.iteration) := by
  unfold devStep
  dsimp only
  split <;> rfl

theorem acceptable_iff (threshold : Int) (r : QualityReport) :
    r.acceptable threshold = true ↔
      threshold ≤ r.score ∧ ∀ f ∈ r.issues, f.severity ≠ .critical ∧ f.severity ≠ .high := by
  unfold QualityReport.acceptable
  simp [List.all_eq_true, Bool.and_eq_true, bne_iff_ne, decide_eq_true_eq]

theorem devStep_complete (env : DevEnv) (s : DevState) :
    (devStep env s).complete
      = ((env.execute_tests (s.current_files.update (env.generate s.plan s.iteration))).passed
          && (env.analyze_quality (s.current_files.update (env.generate s.plan s.iteration))).acceptable
              env.threshold) := by
  unfold devStep
  dsimp only
  split
  next h => exact h.symm
  next h => simp only [Bool.not_eq_true] at h; exact h.symm

theorem devStep_plan (env : DevEnv) (s : DevState) :
    (devStep env s).plan
      = if ((env.execute_tests (s.current_files.update (env.generate s.plan s.iteration))).passed
            && (env.analyze_quality (s.current_files.update (env.generate s.plan s.iteration))).acceptable
                env.threshold) = true
        then s.plan
        else s.plan ++ env.analyze_issues
            (env.execute_tests (s.current_files.update (env.generate s.plan s.iteration)))
            (env.analyze_quality (s.current_files.update (env.generate s.plan s.iteration))) := by
  unfold devStep
  dsimp only
  split <;> rfl

/-- C2: one loop body of `iterative_develop` marks the task complete
(advances past the loop) iff the tests pass, the quality score meets the
threshold, and there is no critical- or high-severity finding; when it does
not, the extracted findings are appended to the Developer's plan (context),
and while the iteration count is below the maximum the loop runs another
`Developing` iteration. -/
theorem retry_decision (env : DevEnv) (max_iterations : Nat) (s : DevState) :
    ((devStep env s).complete = true ↔
        ((env.execute_tests (s.current_files.update (env.generate s.plan s.iteration))).passed = true
          ∧ env.threshold
              ≤ (env.analyze_quality (s.current_files.update (env.generate s.plan s.iteration))).score
          ∧ ∀ f ∈ (env.analyze_quality (s.current_files.update (env.generate s.plan s.iteration))).issues,
              f.severity ≠ .critical ∧ f.severity ≠ .high)) ∧
    ((devStep env s).complete = false →
        (devStep env s).plan
          = s.plan ++ env.analyze_issues
              (env.execute_tests (s.current_files.update (env.generate s.plan s.iteration)))
              (env.analyze_quality (s.current_files.update (env.generate s.plan s.iteration)))) ∧
    (∀ fuel, s.iteration < max_iterations → s.complete = false →
        devLoop env max_iterations (fuel + 1) s = devLoop env max_iterations fuel (devStep env s)) := by
  refine ⟨?hiff, ?hplan, ?hloop⟩
  case hiff =>
    rw [devStep_complete, Bool.and_eq_true, acceptable_iff]
  case hplan =>
    intro hc
    have hcond := devStep_complete env s
    rw [hc] at hcond
    rw [devStep_plan, if_neg (by rw [← hcond]; simp)]
  case hloop =>
    intro fuel hlt hcomp
    rw [devLoop, if_pos ⟨hlt, hcomp⟩]

/-- A concrete oracle set on which the quality bar is never reached: the
tests always fail and every version carries a high-severity finding. -/
def retryEnv : DevEnv :=
  { threshold := 80
    generate := fun _ i => [("main", "v" ++ toString i)]
    execute_tests := fun _ => { passed := false }
    analyze_quality := fun cf =>
      if cf = [("main", "v0")] then { score := 70, issues := [⟨.high, "first"⟩] }
      else { score := 50, issues := [⟨.high, "later"⟩] }
    analyze_issues := fun _ qr => qr.issues }

/-- Witness for C2: on `retryEnv` the first iteration fails the gate, the
findings are appended to the plan, and the loop takes another iteration. -/
theorem retry_decision_witness :
    ((devStep retryEnv initDevState).plan
        = initDevState.plan ++ retryEnv.analyze_issues
            (retryEnv.execute_tests
              (initDevState.current_files.update (retryEnv.generate initDevState.plan initDevState.iteration)))
            (retryEnv.analyze_quality
              (initDevState.current_files.update (retryEnv.generate initDevState.plan initDevState.iteration)))) ∧
    devLoop retryEnv 5 (0 + 1) initDevState = devLoop retryEnv 5 0 (devStep retryEnv initDevState) :=
  ⟨(retry_decision retryEnv 5 initDevState).2.1 (by decide),
    (retry_decision retryEnv 5 initDevState).2.2 0 (by decide) rfl⟩

theorem devLoop_versions_bound (env : DevEnv) (max_iterations : Nat) :
    ∀ fuel (s : DevState),
      (devLoop env max_iterations fuel s).versions.length
        ≤ s.versions.length + (max_iterations - s.iteration) := by
  intro fuel
  induction fuel with
  | zero => intro s; simp [devLoop]
  | succ n ih =>
    intro s
    rw [devLoop]
    split
    next hcond =>
      have h := ih (devStep env s)
      rw [devStep_iteration, devStep_versions] at h
      simp only [List.length_append, List.length_cons, List.length_nil] at h
      omega
    next hcond => omega

/-- C3: the `Developing`↔`Evaluating` retry loop of `iterative_develop`
executes at most `max_iterations` iterations from a fresh run (one artifact
version is produced per iteration, and at most `max_iterations` versions
are ever produced); the loop is a total function, so no run cycles
indefinitely. -/
theorem retry_loop_bounded (env : DevEnv) (max_iterations fuel : Nat) :
    (devLoop env max_iterations fuel initDevState).versions.length ≤ max_iterations := by
  simpa [initDevState] using devLoop_versions_bound env max_iterations fuel initDevState

theorem devLoop_iteration_le (env : DevEnv) (max_iterations : Nat) :
    ∀ fuel (s : DevState), s.iteration ≤ max_iterations →
      (devLoop env max_iterations fuel s).iteration ≤ max_iterations := by
  intro fuel
  induction fuel with
  | zero => intro s hs; simpa [devLoop] using hs
  | succ n ih =>
    intro s hs
    rw [devLoop]
    split
    next hcond =>
      refine ih (devStep env s) ?hnext
      rw [devStep_iteration]
      omega
    next hcond => exact hs

theorem devLoop_iteration_ge (env : DevEnv) (max_iterations : Nat) :
    ∀ fuel (s : DevState), max_iterations ≤ fuel + s.iteration →
      (devLoop env max_iterations fuel s).complete = false →
      max_iterations ≤ (devLoop env max_iterations fuel s).iteration := by
  intro fuel
  induction fuel with
  | zero =>
    intro s hs _
    simpa [devLoop] using hs
  | succ n ih =>
    intro s hs hc
    rw [devLoop] at hc ⊢
    split
    next hcond =>
      rw [if_pos hcond] at hc
      refine ih (devStep env s) ?hge hc
      rw [devStep_iteration]
      omega
    next hcond =>
      rw [if_neg hcond] at hc
      push_neg at hcond
      rcases Nat.lt_or_ge s.iteration max_iterations with hlt | hge
      · exact absurd hc (by simp [hcond hlt])
      · exact hge

theorem devLoop_versions_iteration (env : DevEnv) (max_iterations : Nat) :
    ∀ fuel (s : DevState),
      (devLoop env max_iterations fuel s).versions.length + s.iteration
        = s.versions.length + (devLoop env max_iterations fuel s).iteration := by
  intro fuel
  induction fuel with
  | zero => intro s; simp [devLoop]
  | succ n ih =>
    intro s
    rw [devLoop]
    split
    next hcond =>
      have h := ih (devStep env s)
      rw [devStep_iteration, devStep_versions] at h
      simp only [List.length_append, List.length_cons, List.length_nil] at h
      omega
    next hcond => omega

theorem devLoop_getLast (env : DevEnv) (max_iterations : Nat) :
    ∀ fuel (s : DevState),
      (s.versions = [] ∨ s.versions.getLast? = some s.current_files) →
      ((devLoop env max_iterations fuel s).versions = []
        ∨ (devLoop env max_iterations fuel s).versions.getLast?
            = some (devLoop env max_iterations fuel s).current_files) := by
  intro fuel
  induction fuel with
  | zero => intro s hs; simpa [devLoop] using hs
  | succ n ih =>
    intro s hs
    rw [devLoop]
    split
    next hcond =>
      refine ih (devStep env s) ?hinv
      right
      rw [devStep_versions, devStep_current_files, List.getLast?_concat]
    next hcond => exact hs

/-- The best-scoring artifact version of a run: the first version attaining
the maximal quality score among the versions produced by the loop. -/
def bestVersion (s : DevState) : Option FilesDict :=
  ((s.versions.zip (s.reports.map QualityReport.score)).foldl
    (fun acc vr =>
      match acc with
      | none => some vr
      | some best => if best.2 < vr.2 then some vr else some best) none).map Prod.fst

/-- C4 counterexample: on `retryEnv` the loop exhausts its five iterations
without passing the gate; the first version scores 70 and every later one
50, yet the run's output is the last version (`v4`), not the best-scoring
version (`v0`) — so the output is not the best-scoring version produced
during the loop. -/
theorem quality_ceiling_keeps_last_not_best :
    (devLoop retryEnv 5 5 initDevState).complete = false ∧
    iterative_develop retryEnv = [("main", "v4")] ∧
    (devLoop retryEnv 5 5 initDevState).reports.map QualityReport.score = [70, 50, 50, 50, 50] ∧
    bestVersion (devLoop retryEnv 5 5 initDevState) = some [("main", "v0")] ∧
    ([("main", "v0")] : FilesDict) ≠ [("main", "v4")] := by
  refine ⟨?h1, ?h2, ?h3, ?h4, ?h5⟩ <;> decide

/-- C4 (amended): when the retry loop exhausts the maximum iteration count
without passing the quality gate (the final state is not complete), it has
run exactly `max_iterations` iterations, and the artifact preserved as the
run's output is the *last* version produced (the final accumulated file
state) — which, by `quality_ceiling_keeps_last_not_best`, need not be the
best-scoring one; no `Failed`-state bookkeeping exists in the code. -/
theorem quality_ceiling_returns_last (env : DevEnv) (max_iterations : Nat)
    (hpos : 0 < max_iterations)
    (hfail : (devLoop env max_iterations max_iterations initDevState).complete = false) :
    (devLoop env max_iterations max_iterations initDevState).versions.length = max_iterations ∧
    (devLoop env max_iterations max_iterations initDevState).versions.getLast?
      = some (devLoop env max_iterations max_iterations initDevState).current_files := by
  have hz1 : initDevState.iteration = 0 := rfl
  have hz2 : initDevState.versions = ([] : List FilesDict) := rfl
  have hge := devLoop_iteration_ge env max_iterations max_iterations initDevState
    (by rw [hz1]; omega) hfail
  have hle := devLoop_iteration_le env max_iterations max_iterations initDevState
    (by rw [hz1]; omega)
  have hvi := devLoop_versions_iteration env max_iterations max_iterations initDevState
  rw [hz1, hz2] at hvi
  simp only [List.length_nil] at hvi
  have hlen : (devLoop env max_iterations max_iterations initDevState).versions.length
      = max_iterations := by omega
  refine ⟨hlen, ?hlast⟩
  have hinv := devLoop_getLast env max_iterations max_iterations initDevState (Or.inl hz2)
  rcases hinv with hnil | hlast
  · rw [hnil] at hlen
    simp at hlen
    omega
  · exact hlast

/-- Witness for the amended C4 on `retryEnv`: five iterations are executed
and the output is the last produced version. -/
theorem quality_ceiling_returns_last_witness :
    (devLoop retryEnv 5 5 initDevState).versions.length = 5 ∧
    (devLoop retryEnv 5 5 initDevState).versions.getLast?
      = some (devLoop retryEnv 5 5 initDevState).current_files :=
  quality_ceiling_returns_last retryEnv 5 (by decide) (by decide)

/-! ## WebSocket client reconnect policy (`WebSocketContext.jsx`) -/

/-- `RECONNECT_INTERVAL = 5000` (5-second base reconnect interval). -/
def RECONNECT_INTERVAL : Nat := 5000

/-- `MAX_RECONNECT_ATTEMPTS = 10`. -/
def MAX_RECONNECT_ATTEMPTS : Nat := 10

/-- `scheduleReconnect`, from `WebSocketContext.jsx`: when the attempt
counter has reached the maximum nothing is scheduled; otherwise the counter
is incremented and a reconnect is scheduled after
`min(RECONNECT_INTERVAL * 2^reconnectAttempts, 30000)` milliseconds (the
delay is computed from the pre-increment counter value, as in the source
closure).  Returns the scheduled delay and the new counter, or `none`. -/
def scheduleReconnect (reconnectAttempts : Nat) : Option (Nat × Nat) :=
  if reconnectAttempts ≥ MAX_RECONNECT_ATTEMPTS then none
  else some (min (RECONNECT_INTERVAL * 2 ^ reconnectAttempts) 30000, reconnectAttempts + 1)

/-- The reconnect decision of the `onclose` handler: if the close was not a
clean close (code 1000) and the attempt counter is below the maximum, call
`scheduleReconnect`; otherwise do not reconnect. -/
def onclose (code : Nat) (reconnectAttempts : Nat) : Option (Nat × Nat) :=
  if code ≠ 1000 ∧ reconnectAttempts < MAX_RECONNECT_ATTEMPTS then
    scheduleReconnect reconnectAttempts
  else none

/-- C10: a clean close (code 1000) never schedules a reconnect; any other
close code schedules the n-th reconnect attempt (n starting at 0) with
delay `min(5000 * 2^n, 30000)` milliseconds, and after 10 failed attempts
no further reconnect is scheduled. -/
theorem reconnect_policy (code n : Nat) :
    (code = 1000 → onclose code n = none) ∧
    (code ≠ 1000 → n < 10 → onclose code n = some (min (5000 * 2 ^ n) 30000, n + 1)) ∧
    (10 ≤ n → onclose code n = none) := by
  refine ⟨?hclean, ?hsched, ?hmax⟩
  case hclean =>
    intro h
    unfold onclose
    rw [if_neg (by simp [h])]
  case hsched =>
    intro hcode hn
    unfold onclose scheduleReconnect MAX_RECONNECT_ATTEMPTS RECONNECT_INTERVAL
    rw [if_pos ⟨hcode, hn⟩, if_neg (by omega)]
  case hmax =>
    intro hn
    unfold onclose MAX_RECONNECT_ATTEMPTS
    rw [if_neg (by omega)]

/-- Witness for C10: an abnormal close at attempt 3 schedules a 30-second
reconnect; attempt 10 and clean closes schedule nothing. -/
theorem reconnect_policy_witness :
    onclose 1006 3 = some (min (5000 * 2 ^ 3) 30000, 4) ∧
    onclose 1006 10 = none ∧
    onclose 1000 0 = none :=
  ⟨(reconnect_policy 1006 3).2.1 (by decide) (by decide),
    (reconnect_policy 1006 10).2.2 (by decide),
    (reconnect_policy 1000 0).1 rfl⟩

/-! ## Run Registry (modelled from the spec) -/

/-- Run status, per the data model
(`pending|active|paused|succeeded|failed`). -/
inductive RunStatus where
  | pending
  | active
  | paused
  | succeeded
  | failed
deriving DecidableEq, Repr

/-- A Run is active while it has not reached a terminal state. -/
def RunStatus.isActive : RunStatus → Bool
  | .succeeded => false
  | .failed => false
  | _ => true

/-- One Run record of the registry. -/
structure RunRec where
  runId : Nat
  projectId : Nat
  status : RunStatus
deriving DecidableEq, Repr

/-- The process-wide Run Registry: the live runs plus the next fresh run
id. -/
structure Registry where
  runs : List RunRec
  nextRunId : Nat
deriving Repr

/-- Result of a `createRun` request. -/
inductive CreateResult where
  | ok (runId : Nat)
  | conflictError
deriving DecidableEq, Repr

/-- Whether the registry holds an active Run for the project. -/
def Registry.hasActive (reg : Registry) (p : Nat) : Bool :=
  reg.runs.any (fun r => r.projectId == p && r.status.isActive)

/-- Number of active Runs for the project. -/
def Registry.activeCount (reg : Registry) (p : Nat) : Nat :=
  reg.runs.countP (fun r => r.projectId == p && r.status.isActive)

/-- Modelled from the spec: the Run Registry's atomic check-and-create is
not part of the repository snapshot (the frontend's `createProject` merely
posts the request to the backend).  Per the spec, a creation request for a
project with an active Run is rejected synchronously with a typed conflict
error and never queued; otherwise a fresh active Run is created.
Atomicity means concurrent calls are linearized, so a set of concurrent
calls is modelled as a sequence applied one at a time. -/
def Registry.createRun (reg : Registry) (p : Nat) : CreateResult × Registry :=
  if reg.hasActive p then (.conflictError, reg)
  else (.ok reg.nextRunId,
    { runs := reg.runs ++ [{ runId := reg.nextRunId, projectId := p, status := .active }],
      nextRunId := reg.nextRunId + 1 })

/-- `k` linearized concurrent `createRun` calls for one project, returning
the per-call results in order and the final registry. -/
def applyCreates (reg : Registry) (p : Nat) : Nat → List CreateResult × Registry
  | 0 => ([], reg)
  | k + 1 =>
    let step := reg.createRun p
    let rest := applyCreates step.2 p k
    (step.1 :: rest.1, rest.2)

theorem createRun_of_hasActive (reg : Registry) (p : Nat) (h : reg.hasActive p = true) :
    reg.createRun p = (.conflictError, reg) := by
  unfold Registry.createRun
  rw [if_pos h]

theorem hasActive_after_create (reg : Registry) (p : Nat) (h : reg.hasActive p = false) :
    (reg.createRun p).2.hasActive p = true := by
  unfold Registry.createRun
  rw [if_neg (by simp [h])]
  unfold Registry.hasActive
  simp [List.any_append, RunStatus.isActive]

theorem applyCreates_all_conflict (p : Nat) :
    ∀ (k : Nat) (reg : Registry), reg.hasActive p = true →
      applyCreates reg p k = (List.replicate k .conflictError, reg) := by
  intro k
  induction k with
  | zero => intro reg _; rfl
  | succ n ih =>
    intro reg h
    unfold applyCreates
    rw [createRun_of_hasActive reg p h]
    dsimp only
    rw [ih reg h]
    simp [List.replicate_succ]

theorem activeCount_eq_zero_of_not_hasActive (reg : Registry) (p : Nat)
    (h : reg.hasActive p = false) : reg.activeCount p = 0 := by
  unfold Registry.hasActive at h
  unfold Registry.activeCount
  rw [List.any_eq_false] at h
  rw [List.countP_eq_zero]
  intro r hr
  exact h r hr

theorem activeCount_after_create (reg : Registry) (p q : Nat) (h : reg.hasActive p = false) :
    (reg.createRun p).2.activeCount q
      = reg.activeCount q + (if q = p then 1 else 0) := by
  unfold Registry.createRun
  rw [if_neg (by simp [h])]
  unfold Registry.activeCount
  dsimp only
  rw [List.countP_append]
  by_cases hq : q = p
  · subst hq
    simp [RunStatus.isActive]
  · simp [List.countP_cons, RunStatus.isActive, hq, Ne.symm hq]

theorem applyCreates_invariant (p : Nat) :
    ∀ (k : Nat) (reg : Registry), (∀ q, reg.activeCount q ≤ 1) →
      ∀ q, (applyCreates reg p k).2.activeCount q ≤ 1 := by
  intro k
  induction k with
  | zero => intro reg hinv q; exact hinv q
  | succ n ih =>
    intro reg hinv q
    unfold applyCreates
    dsimp only
    refine ih (reg.createRun p).2 ?hstep q
    intro q2
    by_cases h : reg.hasActive p = true
    · rw [createRun_of_hasActive reg p h]
      exact hinv q2
    · rw [Bool.not_eq_true] at h
      rw [activeCount_after_create reg p q2 h]
      by_cases hq : q2 = p
      · rw [if_pos hq, hq, activeCount_eq_zero_of_not_hasActive reg p h]
      · rw [if_neg hq]
        have := hinv q2
        omega

/-- C5: the Run Registry admits at most one active Run per project id.  For
any number `k` of (linearized) concurrent `createRun` calls on one project:
if the project already has an active Run every call returns
`conflictError`; otherwise exactly the first call succeeds and every other
call returns `conflictError`; and the at-most-one-active-Run-per-project
invariant is preserved (hence holds at every instant, each instant being
the final state of a shorter call prefix). -/
theorem single_active_run (reg : Registry) (p : Nat) (k : Nat)
    (hinv : ∀ q, reg.activeCount q ≤ 1) :
    (reg.hasActive p = true → (applyCreates reg p k).1 = List.replicate k .conflictError) ∧
    (reg.hasActive p = false → 0 < k →
      (applyCreates reg p k).1
        = .ok reg.nextRunId :: List.replicate (k - 1) .conflictError) ∧
    (∀ q, (applyCreates reg p k).2.activeCount q ≤ 1) := by
  refine ⟨?hall, ?hfirst, applyCreates_invariant p k reg hinv⟩
  case hall =>
    intro h
    rw [applyCreates_all_conflict p k reg h]
  case hfirst =>
    intro h hk
    obtain ⟨n, rfl⟩ : ∃ n, k = n + 1 := ⟨k - 1, by omega⟩
    unfold applyCreates
    dsimp only
    have hok : (reg.createRun p).1 = .ok reg.nextRunId := by
      unfold Registry.createRun
      rw [if_neg (by simp [h])]
    have hconf := applyCreates_all_conflict p n (reg.createRun p).2
      (hasActive_after_create reg p h)
    rw [hok, hconf]
    simp

/-- Witness for C5: three concurrent creation calls on a fresh registry —
the first succeeds, the other two get the conflict error. -/
theorem single_active_run_witness :
    (applyCreates { runs := [], nextRunId := 0 } 7 3).1
      = .ok 0 :: List.replicate 2 .conflictError :=
  (single_active_run { runs := [], nextRunId := 0 } 7 3
      (fun q => by simp [Registry.activeCount])).2.1 rfl (by decide)

/-! ## Event Hub sequence numbering (modelled from the spec) -/

/-- A Subscription together with the sequence numbers delivered to it, in
delivery order. -/
structure Subscription where
  observerId : Nat
  delivered : List Nat
deriving DecidableEq, Repr

/-- Ring buffer capacity (default N = 100). -/
def RING_BUFFER_SIZE : Nat := 100

/-- Modelled from the spec: the Event Hub's publish path is not part of the
repository snapshot (the frontend's `onmessage` merely consumes messages).
Per the spec, the Hub keeps a per-run monotonically increasing sequence
counter and a bounded ring buffer, and `publish` assigns the next sequence
number, appends the event to the ring buffer, then delivers it to every
live Subscription of the run. -/
structure Hub where
  nextSeq : Nat
  buffer : List Nat
  subs : List Subscription
deriving Repr

/-- `publish`: assign the next sequence number, append to the ring buffer
(evicting the oldest entries beyond capacity), deliver to every live
Subscription. -/
def Hub.publish (h : Hub) : Hub :=
  let seq := h.nextSeq
  let buf := h.buffer ++ [seq]
  { nextSeq := seq + 1
    buffer := if RING_BUFFER_SIZE < buf.length then buf.drop (buf.length - RING_BUFFER_SIZE) else buf
    subs := h.subs.map (fun s => { s with delivered := s.delivered ++ [seq] }) }

/-- `subscribe`: register a new Subscription; it receives events published
from this point on. -/
def Hub.subscribe (h : Hub) (oid : Nat) : Hub :=
  { h with subs := h.subs ++ [{ observerId := oid, delivered := [] }] }

/-- `unsubscribe`: remove the observer's Subscription. -/
def Hub.unsubscribe (h : Hub) (oid : Nat) : Hub :=
  { h with subs := h.subs.filter (fun s => s.observerId != oid) }

/-- One Event Hub operation for a single run's stream. -/
inductive HubOp where
  | publish
  | subscribe (oid : Nat)
  | unsubscribe (oid : Nat)

/-- Apply a sequence of Hub operations. -/
def applyOps (h : Hub) : List HubOp → Hub
  | [] => h
  | op :: rest =>
    applyOps (match op with
      | .publish => h.publish
      | .subscribe oid => h.subscribe oid
      | .unsubscribe oid => h.unsubscribe oid) rest

/-- The Hub before any event of the run is published. -/
def initHub : Hub := { nextSeq := 0, buffer := [], subs := [] }

/-- Every live Subscription's delivery log is a contiguous run of sequence
numbers ending at the current counter. -/
def subInvariant (h : Hub) : Prop :=
  ∀ s ∈ h.subs, ∃ j, j ≤ h.nextSeq ∧ s.delivered = List.range' j (h.nextSeq - j)

theorem subInvariant_publish (h : Hub) (hinv : subInvariant h) : subInvariant h.publish := by
  intro s hs
  unfold Hub.publish at hs
  dsimp only at hs
  rw [List.mem_map] at hs
  obtain ⟨s0, hs0, rfl⟩ := hs
  obtain ⟨j, hj, hdel⟩ := hinv s0 hs0
  refine ⟨j, by show j ≤ h.nextSeq + 1; omega, ?hrange⟩
  show s0.delivered ++ [h.nextSeq] = List.range' j (h.nextSeq + 1 - j)
  rw [hdel, show h.nextSeq + 1 - j = (h.nextSeq - j) + 1 by omega, List.range'_1_concat]
  congr 2
  omega

theorem subInvariant_subscribe (h : Hub) (oid : Nat) (hinv : subInvariant h) :
    subInvariant (h.subscribe oid) := by
  intro s hs
  unfold Hub.subscribe at hs
  dsimp only at hs
  rw [List.mem_append] at hs
  rcases hs with hs | hs
  · exact hinv s hs
  · rw [List.mem_singleton] at hs
    subst hs
    refine ⟨h.nextSeq, ?hle, ?hdel⟩
    · show h.nextSeq ≤ h.nextSeq
      exact le_refl _
    · show ([] : List Nat) = List.range' h.nextSeq (h.nextSeq - h.nextSeq)
      simp

theorem subInvariant_unsubscribe (h : Hub) (oid : Nat) (hinv : subInvariant h) :
    subInvariant (h.unsubscribe oid) := by
  intro s hs
  unfold Hub.unsubscribe at hs
  dsimp only at hs
  rw [List.mem_filter] at hs
  exact hinv s hs.1

theorem subInvariant_applyOps (ops : List HubOp) :
    ∀ h : Hub, subInvariant h → subInvariant (applyOps h ops) := by
  induction ops with
  | nil => intro h hinv; exact hinv
  | cons op rest ih =>
    intro h hinv
    unfold applyOps
    cases op with
    | publish => exact ih _ (subInvariant_publish h hinv)
    | subscribe oid => exact ih _ (subInvariant_subscribe h oid hinv)
    | unsubscribe oid => exact ih _ (subInvariant_unsubscribe h oid hinv)

theorem chain'_succ_range' : ∀ (n j : Nat),
    List.Chain' (fun a b => b = a + 1) (List.range' j n) := by
  intro n
  induction n with
  | zero => intro j; simp
  | succ m ih =>
    intro j
    rw [List.range'_succ]
    cases m with
    | zero => simp
    | succ m2 =>
      rw [List.range'_succ, List.chain'_cons]
      exact ⟨rfl, by rw [← List.range'_succ]; exact ih (j + 1)⟩

/-- C6: for every sequence of Hub operations on a run's stream and every
subscriber still connected at the end (hence continuously connected since
it subscribed), the sequence numbers delivered to it are consecutive:
strictly increasing with no gaps. -/
theorem event_sequence_gapless (ops : List HubOp) :
    ∀ s ∈ (applyOps initHub ops).subs,
      List.Chain' (fun a b => b = a + 1) s.delivered := by
  intro s hs
  have hinv : subInvariant initHub := by
    intro s hs
    simp [initHub] at hs
  obtain ⟨j, _, hdel⟩ := subInvariant_applyOps ops initHub hinv s hs
  rw [hdel]
  exact chain'_succ_range' _ j

/-- Witness for C6: a subscriber registered before three publishes receives
exactly the consecutive sequence numbers 0, 1, 2. -/
theorem event_sequence_gapless_witness :
    List.Chain' (fun a b => b = a + 1) ([0, 1, 2] : List Nat) :=
  event_sequence_gapless [.subscribe 1, .publish, .publish, .publish]
    { observerId := 1, delivered := [0, 1, 2] } (by decide)

/-! ## Event Hub heartbeat (modelled from the spec) -/

/-- Liveness state of one Subscription's connection: the count of
consecutive missed keepalive acknowledgments, and whether the Subscription
has been marked dead. -/
structure HeartbeatState where
  missed : Nat
  dead : Bool
deriving DecidableEq, Repr

/-- A fresh connection: no missed acknowledgments, alive. -/
def initHeartbeat : HeartbeatState := { missed := 0, dead := false }

/-- Modelled from the spec: the Hub-side heartbeat is not part of the
repository snapshot (the frontend only emits pings and ignores pongs).
Per the spec, the Hub sends a keepalive on the idle connection at every
fixed interval; each tick records whether the acknowledgment for that
interval arrived (`acked`).  A missed acknowledgment increments the
consecutive-miss counter, an acknowledgment resets it, and the
Subscription is marked dead — its resources released — exactly when the
counter reaches four.  A dead Subscription stays dead. -/
def hbTick (s : HeartbeatState) (acked : Bool) : HeartbeatState :=
  if s.dead then s
  else if acked then { missed := 0, dead := false }
  else if 4 ≤ s.missed + 1 then { missed := s.missed + 1, dead := true }
  else { missed := s.missed + 1, dead := false }

/-- Run the heartbeat over a trace of keepalive intervals (`true` = the
acknowledgment arrived). -/
def runHeartbeat (trace : List Bool) : HeartbeatState :=
  trace.foldl hbTick initHeartbeat

/-- The trace opens with `k` consecutive missed acknowledgments. -/
def startsMissed (k : Nat) (trace : List Bool) : Prop :=
  ∃ l2, trace = List.replicate k false ++ l2

/-- Somewhere in the trace, `k` consecutive acknowledgments are missed. -/
def hasMissedRun (k : Nat) (trace : List Bool) : Prop :=
  ∃ l1 l2, trace = l1 ++ List.replicate k false ++ l2

theorem hb_foldl_dead (trace : List Bool) :
    ∀ s : HeartbeatState, s.dead = true → trace.foldl hbTick s = s := by
  induction trace with
  | nil => intro s _; rfl
  | cons a rest ih =>
    intro s hs
    rw [List.foldl_cons, show hbTick s a = s by unfold hbTick; rw [if_pos hs]]
    exact ih s hs

theorem startsMissed_mono {k' k : Nat} (hk : k' ≤ k) {t : List Bool}
    (h : startsMissed k t) : startsMissed k' t := by
  obtain ⟨l2, rfl⟩ := h
  refine ⟨List.replicate (k - k') false ++ l2, ?heq⟩
  rw [← List.append_assoc, ← List.replicate_add]
  congr 2
  omega

theorem not_startsMissed_cons_true (k : Nat) (rest : List Bool) (hk : 0 < k) :
    ¬ startsMissed k (true :: rest) := by
  rintro ⟨l2, h⟩
  obtain ⟨k', rfl⟩ : ∃ k', k = k' + 1 := ⟨k - 1, by omega⟩
  rw [List.replicate_succ, List.cons_append] at h
  injection h with h1 _
  exact absurd h1 (by decide)

theorem startsMissed_cons_false (k : Nat) (rest : List Bool) :
    startsMissed (k + 1) (false :: rest) ↔ startsMissed k rest := by
  constructor
  · rintro ⟨l2, h⟩
    rw [List.replicate_succ, List.cons_append] at h
    injection h with _ h2
    exact ⟨l2, h2⟩
  · rintro ⟨l2, rfl⟩
    exact ⟨l2, by rw [List.replicate_succ, List.cons_append]⟩

theorem hasMissedRun_cons_true (rest : List Bool) :
    hasMissedRun 4 (true :: rest) ↔ hasMissedRun 4 rest := by
  constructor
  · rintro ⟨l1, l2, h⟩
    cases l1 with
    | nil =>
      rw [List.nil_append,
        show List.replicate 4 false = false :: List.replicate 3 false from rfl,
        List.cons_append] at h
      injection h with h1 _
      exact absurd h1 (by decide)
    | cons a l1' =>
      rw [List.cons_append] at h
      injection h with _ h2
      exact ⟨l1', l2, h2⟩
  · rintro ⟨l1, l2, rfl⟩
    exact ⟨true :: l1, l2, rfl⟩

theorem hasMissedRun_cons_false (rest : List Bool) :
    hasMissedRun 4 (false :: rest) ↔ startsMissed 3 rest ∨ hasMissedRun 4 rest := by
  constructor
  · rintro ⟨l1, l2, h⟩
    cases l1 with
    | nil =>
      rw [List.nil_append,
        show List.replicate 4 false = false :: List.replicate 3 false from rfl,
        List.cons_append] at h
      injection h with _ h2
      exact Or.inl ⟨l2, h2⟩
    | cons a l1' =>
      rw [List.cons_append] at h
      injection h with _ h2
      exact Or.inr ⟨l1', l2, h2⟩
  · rintro (⟨l2, rfl⟩ | ⟨l1, l2, rfl⟩)
    · exact ⟨[], l2,
        by rw [List.nil_append,
          show List.replicate 4 false = false :: List.replicate 3 false from rfl,
          List.cons_append]⟩
    · exact ⟨false :: l1, l2, by simp⟩

theorem hb_dead_iff_from (trace : List Bool) : ∀ m : Nat, m ≤ 3 →
    ((trace.foldl hbTick { missed := m, dead := false }).dead = true ↔
      startsMissed (4 - m) trace ∨ hasMissedRun 4 trace) := by
  induction trace with
  | nil =>
    intro m hm
    simp only [List.foldl_nil]
    constructor
    · intro hfalse
      exact absurd hfalse (by decide)
    · rintro (⟨l2, h⟩ | ⟨l1, l2, h⟩)
      · have hlen := congrArg List.length h
        simp [List.length_replicate] at hlen
        omega
      · have hlen := congrArg List.length h
        simp [List.length_replicate] at hlen
        omega
  | cons a rest ih =>
    intro m hm
    rw [List.foldl_cons]
    cases a with
    | true =>
      have hstep : hbTick { missed := m, dead := false } true = { missed := 0, dead := false } := by
        unfold hbTick
        rw [if_neg (by simp), if_pos rfl]
      rw [hstep, ih 0 (by omega), Nat.sub_zero]
      constructor
      · rintro (⟨l2, rfl⟩ | h)
        · exact Or.inr ⟨[true], l2, rfl⟩
        · exact Or.inr ((hasMissedRun_cons_true rest).mpr h)
      · rintro (h | h)
        · exact absurd h (not_startsMissed_cons_true (4 - m) rest (by omega))
        · exact Or.inr ((hasMissedRun_cons_true rest).mp h)
    | false =>
      by_cases hm3 : m = 3
      · subst hm3
        have hstep : hbTick { missed := 3, dead := false } false
            = { missed := 4, dead := true } := by
          unfold hbTick
          rw [if_neg (by simp), if_neg (by simp), if_pos (by show (4:Nat) ≤ 3 + 1; omega)]
        rw [hstep, hb_foldl_dead rest _ rfl]
        constructor
        · intro _
          exact Or.inl ⟨rest, rfl⟩
        · intro _
          rfl
      · have hstep : hbTick { missed := m, dead := false } false
            = { missed := m + 1, dead := false } := by
          unfold hbTick
          rw [if_neg (by simp), if_neg (by simp), if_neg (by show ¬ (4 ≤ m + 1); omega)]
        rw [hstep, ih (m + 1) (by omega), hasMissedRun_cons_false rest]
        have hsm : startsMissed (4 - m) (false :: rest) ↔ startsMissed (3 - m) rest := by
          rw [show 4 - m = (3 - m) + 1 by omega, startsMissed_cons_false]
        rw [hsm, show 4 - (m + 1) = 3 - m by omega]
        constructor
        · rintro (h | h)
          · exact Or.inl h
          · exact Or.inr (Or.inr h)
        · rintro (h | h | h)
          · exact Or.inl h
          · exact Or.inl (startsMissed_mono (by omega) h)
          · exact Or.inr h

/-- C8: over every trace of keepalive intervals (the Hub pings the idle
connection once per fixed interval; each trace entry records whether that
interval's acknowledgment arrived), the Subscription is marked dead iff the
trace contains four consecutive missed acknowledgments — and never
earlier: with no such run of four, the Subscription stays alive. -/
theorem heartbeat_four_missed (trace : List Bool) :
    (runHeartbeat trace).dead = true ↔
      ∃ l1 l2, trace = l1 ++ List.replicate 4 false ++ l2 := by
  unfold runHeartbeat initHeartbeat
  rw [hb_dead_iff_from trace 0 (by omega)]
  constructor
  · rintro (⟨l2, rfl⟩ | h)
    · exact ⟨[], l2, by rw [List.nil_append]⟩
    · exact h
  · intro h
    exact Or.inr h

/-- Witness for C8: four straight missed acknowledgments after one acked
interval kill the subscription; three misses do not. -/
theorem heartbeat_four_missed_witness :
    (runHeartbeat [true, false, false, false, false]).dead = true ∧
    (runHeartbeat [false, false, false, true, false]).dead = false :=
  ⟨(heartbeat_four_missed [true, false, false, false, false]).mpr ⟨[true], [], rfl⟩,
    by decide⟩

/-! ## Case Memory similarity retrieval (modelled from the spec) -/

/-- An archived Case, per the data model: request fingerprint keywords,
creation timestamp, final quality score, success flag. -/
structure Case where
  keywords : List String
  timestamp : Nat
  qualityScore : Int
  success : Bool
deriving DecidableEq, Repr

/-- Keyword overlap between the current request's keywords and a stored
fingerprint: the number of distinct request keywords present in the
fingerprint. -/
def keywordOverlap (ctx : List String) (kws : List String) : Nat :=
  (ctx.dedup.filter (fun w => decide (w ∈ kws))).length

/-- Modelled from the spec: the similarity score of `findSimilar` is not
implemented in the repository snapshot (`find_similar_cases` in the
requirements document leaves `sort_by_similarity` opaque and takes no
`k`).  Per the spec it combines the keyword overlap with a recency decay
factor — `1 / (1 + age)`, strictly decreasing in the case's age — so that
at equal keyword overlap a more recent case scores strictly higher. -/
def similarity (ctx : List String) (now : Nat) (c : Case) : ℚ :=
  (keywordOverlap ctx c.keywords : ℚ) + 1 / (1 + ((now - c.timestamp : Nat) : ℚ))

/-- The ranking relation used to order candidate Cases: higher similarity
first; at equal similarity the higher final quality score wins. -/
def caseRank (ctx : List String) (now : Nat) (c1 c2 : Case) : Prop :=
  similarity ctx now c2 < similarity ctx now c1
    ∨ (similarity ctx now c1 = similarity ctx now c2 ∧ c2.qualityScore ≤ c1.qualityScore)

instance (ctx : List String) (now : Nat) : DecidableRel (caseRank ctx now) := fun a b => by
  unfold caseRank
  infer_instance

instance (ctx : List String) (now : Nat) : IsTotal Case (caseRank ctx now) := ⟨by
  intro a b
  unfold caseRank
  rcases lt_trichotomy (similarity ctx now a) (similarity ctx now b) with h | h | h
  · exact Or.inr (Or.inl h)
  · rcases le_total b.qualityScore a.qualityScore with hq | hq
    · exact Or.inl (Or.inr ⟨h, hq⟩)
    · exact Or.inr (Or.inr ⟨h.symm, hq⟩)
  · exact Or.inl (Or.inl h)⟩

instance (ctx : List String) (now : Nat) : IsTrans Case (caseRank ctx now) := ⟨by
  intro a b c hab hbc
  unfold caseRank at hab hbc ⊢
  rcases hab with h1 | ⟨h1, q1⟩
  · rcases hbc with h2 | ⟨h2, q2⟩
    · exact Or.inl (lt_trans h2 h1)
    · exact Or.inl (h2 ▸ h1)
  · rcases hbc with h2 | ⟨h2, q2⟩
    · exact Or.inl (h1.symm ▸ h2)
    · exact Or.inr ⟨h1.trans h2, le_trans q2 q1⟩⟩

/-- `findSimilar(requestContext, k)` over the stored case list: rank all
stored Cases by similarity (quality score breaking ties) and return the
top `k`. -/
def findSimilar (ctx : List String) (now : Nat) (cases : List Case) (k : Nat) : List Case :=
  (List.insertionSort (caseRank ctx now) cases).take k

/-- C7: `findSimilar` returns at most `k` Cases, ordered by the combined
similarity ranking; the similarity score strictly prefers the more recent
of two cases with equal keyword overlap, and at equal similarity the
ranking strictly prefers the higher final quality score. -/
theorem find_similar_ranked (ctx : List String) (now : Nat) (cases : List Case) (k : Nat) :
    (findSimilar ctx now cases k).length ≤ k ∧
    (findSimilar ctx now cases k).Sorted (caseRank ctx now) ∧
    (∀ c1 c2 : Case, keywordOverlap ctx c1.keywords = keywordOverlap ctx c2.keywords →
      c1.timestamp ≤ now → c2.timestamp < c1.timestamp →
      similarity ctx now c2 < similarity ctx now c1) ∧
    (∀ c1 c2 : Case, similarity ctx now c1 = similarity ctx now c2 →
      c2.qualityScore < c1.qualityScore →
      caseRank ctx now c1 c2 ∧ ¬ caseRank ctx now c2 c1) := by
  refine ⟨?hlen, ?hsorted, ?hrecency, ?htie⟩
  case hlen =>
    unfold findSimilar
    rw [List.length_take]
    exact min_le_left k _
  case hsorted =>
    exact List.Pairwise.sublist (List.take_sublist k _)
      (List.sorted_insertionSort (caseRank ctx now) cases)
  case hrecency =>
    intro c1 c2 hov h1 h2
    unfold similarity
    rw [hov]
    have hage : now - c1.timestamp < now - c2.timestamp := by omega
    have hlt : ((now - c1.timestamp : Nat) : ℚ) < ((now - c2.timestamp : Nat) : ℚ) := by
      exact_mod_cast hage
    have hpos : (0 : ℚ) < 1 + ((now - c1.timestamp : Nat) : ℚ) := by positivity
    have hfrac : 1 / (1 + ((now - c2.timestamp : Nat) : ℚ))
        < 1 / (1 + ((now - c1.timestamp : Nat) : ℚ)) :=
      one_div_lt_one_div_of_lt hpos (by linarith)
    exact add_lt_add_left hfrac _
  case htie =>
    intro c1 c2 hsim hq
    constructor
    · exact Or.inr ⟨hsim, le_of_lt hq⟩
    · rintro (hlt | ⟨_, hle⟩)
      · exact absurd hlt (by rw [hsim]; exact lt_irrefl _)
      · omega

/-- Witness for C7: at equal overlap the more recent case scores strictly
higher, and at equal similarity the higher-quality case ranks strictly
first. -/
theorem find_similar_ranked_witness :
    (similarity ["a"] 10 { keywords := ["a"], timestamp := 2, qualityScore := 50, success := true }
      < similarity ["a"] 10 { keywords := ["a"], timestamp := 8, qualityScore := 50, success := true }) ∧
    (caseRank ["a"] 10 { keywords := ["a"], timestamp := 5, qualityScore := 90, success := true }
        { keywords := ["a"], timestamp := 5, qualityScore := 40, success := false }
      ∧ ¬ caseRank ["a"] 10 { keywords := ["a"], timestamp := 5, qualityScore := 40, success := false }
          { keywords := ["a"], timestamp := 5, qualityScore := 90, success := true }) :=
  ⟨(find_similar_ranked ["a"] 10 [] 0).2.2.1
      { keywords := ["a"], timestamp := 8, qualityScore := 50, success := true }
      { keywords := ["a"], timestamp := 2, qualityScore := 50, success := true }
      rfl (by decide) (by decide),
    (find_similar_ranked ["a"] 10 [] 0).2.2.2
      { keywords := ["a"], timestamp := 5, qualityScore := 90, success := true }
      { keywords := ["a"], timestamp := 5, qualityScore := 40, success := false }
      rfl (by decide)⟩

end AINexus
